import Mathlib

/-!
Verification of the CIL spectrum-validation and scoring components.

The spectrum-validation engine (voxel geometry, coalescing, declaration
classification, validity windowing, accuracy scoring) is present in the
repository only as the design document
`tools/spectrumvalidation/README.md`; its definitions below are modelled
from that document and the specification.  The flow-traffic scoring parser
(`Update_Flow_Parameter`, `Parse_Flow_Traffic_Stats`) is translated from
the C++ sources of the scoring tool.

Numeric values (timestamps, frequencies, duty cycles) are embedded as
rationals; rectangles in the time-frequency plane are half-open boxes
`[t1, t2) x [f1, f2)`.
-/

/-- Modelled from the spec: an axis-aligned time-frequency rectangle with
rational bounds, the basic element of the Voxel & Region Geometry Engine,
which is absent from the sources (design document only).  The box denotes
the half-open set `[t1, t2) x [f1, f2)`. -/
structure Rect where
  t1 : ℚ
  t2 : ℚ
  f1 : ℚ
  f2 : ℚ
deriving DecidableEq, Repr

/-- A rectangle is proper when both dimensions have positive extent. -/
def properB (r : Rect) : Bool := decide (r.t1 < r.t2) && decide (r.f1 < r.f2)

/-- Signed area of a rectangle. -/
def rectArea (r : Rect) : ℚ := (r.t2 - r.t1) * (r.f2 - r.f1)

/-- Modelled from the spec: rectangle-vs-rectangle intersection of the
geometry engine; `none` when the rectangles do not overlap. -/
def rectInter (a b : Rect) : Option Rect :=
  let c : Rect := ⟨max a.t1 b.t1, min a.t2 b.t2, max a.f1 b.f1, min a.f2 b.f2⟩
  if properB c then some c else none

/-- Modelled from the spec: the parts of rectangle `a` not covered by `b`,
as a list of disjoint rectangles (at most four pieces), the
rectangle-subtraction primitive of the absent geometry engine. -/
def rectDiff (a b : Rect) : List Rect :=
  match rectInter a b with
  | none => [a]
  | some c =>
      List.filter properB
        [⟨a.t1, c.t1, a.f1, a.f2⟩, ⟨c.t2, a.t2, a.f1, a.f2⟩,
         ⟨c.t1, c.t2, a.f1, c.f1⟩, ⟨c.t1, c.t2, c.f2, a.f2⟩]

/-- Total area of a list of rectangles. -/
def regionArea : List Rect → ℚ
  | [] => 0
  | r :: rs => rectArea r + regionArea rs

/-- Subtract a single rectangle from every rectangle of a region. -/
def subRegion : List Rect → Rect → List Rect
  | [], _ => []
  | a :: rest, b => rectDiff a b ++ subRegion rest b

/-- Modelled from the spec: the one-sided difference `difference(A, B)`
of the geometry engine (parts of `A` not in `B`, not symmetric). -/
def diffR (A B : List Rect) : List Rect := B.foldl subRegion A

/-- Modelled from the spec: intersection of a single rectangle with a
region given as a list of rectangles. -/
def interRect (a : Rect) (B : List Rect) : List Rect := B.filterMap (rectInter a)

theorem properB_iff {r : Rect} : properB r = true ↔ r.t1 < r.t2 ∧ r.f1 < r.f2 := by
  simp [properB]

theorem rectArea_pos_of_proper {r : Rect} (h : properB r = true) : 0 < rectArea r := by
  rw [properB_iff] at h
  exact mul_pos (by linarith [h.1]) (by linarith [h.2])

theorem rectInter_proper {a b c : Rect} (h : rectInter a b = some c) : properB c = true := by
  simp only [rectInter] at h
  by_cases hp : properB ⟨max a.t1 b.t1, min a.t2 b.t2, max a.f1 b.f1, min a.f2 b.f2⟩ = true
  · rw [if_pos hp] at h
    exact Option.some.inj h ▸ hp
  · rw [if_neg hp] at h
    exact absurd h (by simp)

theorem regionArea_nonneg {L : List Rect} (h : ∀ r ∈ L, properB r = true) :
    0 ≤ regionArea L := by
  induction L with
  | nil => simp [regionArea]
  | cons a rest ih =>
      have ha := rectArea_pos_of_proper (h a (by simp))
      have hr := ih (fun r hr => h r (by simp [hr]))
      simp only [regionArea]
      linarith

theorem regionArea_append (A B : List Rect) :
    regionArea (A ++ B) = regionArea A + regionArea B := by
  induction A with
  | nil => simp [regionArea]
  | cons a rest ih => simp [regionArea, ih]; ring

theorem interRect_proper (a : Rect) (B : List Rect) :
    ∀ r ∈ interRect a B, properB r = true := by
  intro r hr
  simp only [interRect, List.mem_filterMap] at hr
  obtain ⟨b, _, hb⟩ := hr
  exact rectInter_proper hb

theorem interRect_area_nonneg (a : Rect) (B : List Rect) :
    0 ≤ regionArea (interRect a B) :=
  regionArea_nonneg (interRect_proper a B)

theorem regionArea_filter_le {l : List Rect} (h : ∀ r ∈ l, 0 ≤ rectArea r) :
    regionArea (l.filter properB) ≤ regionArea l := by
  induction l with
  | nil => simp [regionArea]
  | cons a rest ih =>
      have ha := h a (by simp)
      have hrest := ih (fun r hr => h r (by simp [hr]))
      by_cases hp : properB a = true
      · simp only [List.filter_cons, hp, if_pos, regionArea]
        linarith
      · simp only [List.filter_cons, hp, Bool.false_eq_true, if_neg, regionArea,
          not_false_eq_true]
        linarith

theorem filter_proper_mem {l : List Rect} : ∀ r ∈ l.filter properB, properB r = true := by
  intro r hr
  exact (List.mem_filter.mp hr).2

theorem rectInter_eq {a b c : Rect} (h : rectInter a b = some c) :
    c = ⟨max a.t1 b.t1, min a.t2 b.t2, max a.f1 b.f1, min a.f2 b.f2⟩ := by
  simp only [rectInter] at h
  by_cases hp : properB ⟨max a.t1 b.t1, min a.t2 b.t2, max a.f1 b.f1, min a.f2 b.f2⟩ = true
  · rw [if_pos hp] at h
    exact (Option.some.inj h).symm
  · rw [if_neg hp] at h
    exact absurd h (by simp)

theorem rectDiff_proper {a : Rect} (b : Rect) (ha : properB a = true) :
    ∀ r ∈ rectDiff a b, properB r = true := by
  intro r hr
  unfold rectDiff at hr
  match hI : rectInter a b with
  | none =>
      rw [hI] at hr
      simp only [List.mem_singleton] at hr
      exact hr ▸ ha
  | some c =>
      rw [hI] at hr
      exact filter_proper_mem r hr

theorem rectDiff_pieces_nonneg {a b c : Rect} (ha : properB a = true)
    (h : rectInter a b = some c) :
    ∀ r ∈ [(⟨a.t1, c.t1, a.f1, a.f2⟩ : Rect), ⟨c.t2, a.t2, a.f1, a.f2⟩,
           ⟨c.t1, c.t2, a.f1, c.f1⟩, ⟨c.t1, c.t2, c.f2, a.f2⟩], 0 ≤ rectArea r := by
  have hc := properB_iff.mp (rectInter_proper h)
  have hce := rectInter_eq h
  have hap := properB_iff.mp ha
  have h1 : a.t1 ≤ c.t1 := by rw [hce]; exact le_max_left _ _
  have h2 : c.t2 ≤ a.t2 := by rw [hce]; exact min_le_left _ _
  have h3 : a.f1 ≤ c.f1 := by rw [hce]; exact le_max_left _ _
  have h4 : c.f2 ≤ a.f2 := by rw [hce]; exact min_le_left _ _
  intro r hr
  simp only [List.mem_cons, List.not_mem_nil, or_false] at hr
  rcases hr with h | h | h | h <;> subst h <;> unfold rectArea <;> dsimp only <;> nlinarith
    [hap.1, hap.2, hc.1, hc.2]

theorem rectDiff_area_le {a : Rect} (b : Rect) (ha : properB a = true) :
    regionArea (rectDiff a b) ≤ rectArea a := by
  unfold rectDiff
  match hI : rectInter a b with
  | none => simp [regionArea]
  | some c =>
      have hc := properB_iff.mp (rectInter_proper hI)
      have hcpos := rectArea_pos_of_proper (rectInter_proper hI)
      have hsum : regionArea
          [(⟨a.t1, c.t1, a.f1, a.f2⟩ : Rect), ⟨c.t2, a.t2, a.f1, a.f2⟩,
           ⟨c.t1, c.t2, a.f1, c.f1⟩, ⟨c.t1, c.t2, c.f2, a.f2⟩]
          = rectArea a - rectArea c := by
        simp only [regionArea, rectArea]
        ring
      have hle := regionArea_filter_le (rectDiff_pieces_nonneg ha hI)
      rw [hsum] at hle
      linarith

theorem subRegion_proper {A : List Rect} (b : Rect) (hA : ∀ r ∈ A, properB r = true) :
    ∀ r ∈ subRegion A b, properB r = true := by
  induction A with
  | nil => simp [subRegion]
  | cons a rest ih =>
      intro r hr
      simp only [subRegion, List.mem_append] at hr
      rcases hr with h | h
      · exact rectDiff_proper b (hA a (by simp)) r h
      · exact ih (fun r hr => hA r (by simp [hr])) r h

theorem subRegion_area_le {A : List Rect} (b : Rect) (hA : ∀ r ∈ A, properB r = true) :
    regionArea (subRegion A b) ≤ regionArea A := by
  induction A with
  | nil => simp [subRegion]
  | cons a rest ih =>
      have h1 := rectDiff_area_le b (hA a (by simp))
      have h2 := ih (fun r hr => hA r (by simp [hr]))
      simp only [subRegion, regionArea, regionArea_append]
      linarith

theorem diffR_proper {A : List Rect} (B : List Rect) (hA : ∀ r ∈ A, properB r = true) :
    ∀ r ∈ diffR A B, properB r = true := by
  induction B generalizing A with
  | nil => simpa [diffR] using hA
  | cons b rest ih =>
      intro r hr
      simp only [diffR, List.foldl_cons] at hr
      exact ih (subRegion_proper b hA) r hr

theorem diffR_area_le {A : List Rect} (B : List Rect) (hA : ∀ r ∈ A, properB r = true) :
    regionArea (diffR A B) ≤ regionArea A := by
  induction B generalizing A with
  | nil => simp [diffR]
  | cons b rest ih =>
      calc regionArea (diffR A (b :: rest))
          = regionArea (diffR (subRegion A b) rest) := by simp [diffR]
        _ ≤ regionArea (subRegion A b) := ih (subRegion_proper b hA)
        _ ≤ regionArea A := subRegion_area_le b hA

theorem diffR_area_nonneg {A : List Rect} (B : List Rect)
    (hA : ∀ r ∈ A, properB r = true) : 0 ≤ regionArea (diffR A B) :=
  regionArea_nonneg (diffR_proper B hA)

/-- Modelled from the spec: a spectrum usage voxel
`{f_start, f_stop, t_start, t_stop, duty_cycle}` of the absent
spectrum-validation engine; its time interval is `[t_start, t_stop)`. -/
structure Voxel where
  f_start : ℚ
  f_stop : ℚ
  t_start : ℚ
  t_stop : ℚ
  duty_cycle : ℚ
deriving DecidableEq, Repr

/-- Normalized occupied bandwidth, fixed at 1.0 by the design document. -/
def nobw : ℚ := 1

/-- Area of a voxel: `(f_stop - f_start) * (t_stop - t_start)`. -/
def voxelArea (v : Voxel) : ℚ := (v.f_stop - v.f_start) * (v.t_stop - v.t_start)

/-- Reported-on portion of a voxel: `area * duty_cycle * nobw`. -/
def reportOn (v : Voxel) : ℚ := voxelArea v * v.duty_cycle * nobw

/-- The time-frequency rectangle covered by a voxel. -/
def voxelRect (v : Voxel) : Rect := ⟨v.t_start, v.t_stop, v.f_start, v.f_stop⟩

/-- Modelled from the spec: a voxel is valid when its duty cycle is positive
and both dimensions have positive extent (zero duty cycle, zero area and
inverted bounds are all invalid). -/
def validVoxel (v : Voxel) : Bool :=
  decide (0 < v.duty_cycle) && decide (v.t_start < v.t_stop) && decide (v.f_start < v.f_stop)

/-- Modelled from the spec: `A_tx_inside` for one voxel, the area of the
intersection between the voxel and the occupied region `O`. -/
def txInside (O : List Rect) (v : Voxel) : ℚ := regionArea (interRect (voxelRect v) O)

/-- Modelled from the spec: the in-voxel error `E_i` of the Accuracy Scorer,
absent from the sources.  A single pass accumulates the total absolute
per-voxel error, the total intersection area, and the total reported-on
area; the metric divides the first by the max of the last two, with the
documented zero policy for a zero denominator. -/
def Ei (O : List Rect) (vs : List Voxel) : ℚ :=
  let acc := vs.foldl
    (fun (acc : ℚ × ℚ × ℚ) v =>
      (acc.1 + |reportOn v - txInside O v|, acc.2.1 + txInside O v, acc.2.2 + reportOn v))
    (0, 0, 0)
  if max acc.2.1 acc.2.2 = 0 then 0 else acc.1 / max acc.2.1 acc.2.2

/-- Modelled from the spec: the out-of-voxel error `E_o` of the Accuracy
Scorer, absent from the sources: `area(difference(O, V)) / area(O)` with the
documented zero policy when `area(O) = 0`. -/
def Eo (O : List Rect) (vs : List Voxel) : ℚ :=
  if regionArea O = 0 then 0
  else regionArea (diffR O (vs.map voxelRect)) / regionArea O

/-- Modelled from the spec: pipeline entry for `E_i`; invalid voxels are
discarded before scoring. -/
def scoreEi (O : List Rect) (vs : List Voxel) : ℚ := Ei O (vs.filter validVoxel)

/-- Modelled from the spec: pipeline entry for `E_o`; invalid voxels are
discarded before scoring. -/
def scoreEo (O : List Rect) (vs : List Voxel) : ℚ := Eo O (vs.filter validVoxel)

/-- Total reported-on energy of the valid voxels of a list. -/
def totalReportOn (vs : List Voxel) : ℚ := ((vs.filter validVoxel).map reportOn).sum

theorem txInside_nonneg (O : List Rect) (v : Voxel) : 0 ≤ txInside O v :=
  interRect_area_nonneg (voxelRect v) O

theorem reportOn_nonneg {v : Voxel} (hv : validVoxel v = true) : 0 ≤ reportOn v := by
  simp only [validVoxel, Bool.and_eq_true, decide_eq_true_eq] at hv
  obtain ⟨⟨h1, h2⟩, h3⟩ := hv
  unfold reportOn voxelArea nobw
  have : 0 ≤ (v.f_stop - v.f_start) * (v.t_stop - v.t_start) :=
    mul_nonneg (by linarith) (by linarith)
  nlinarith

theorem Ei_foldl (O : List Rect) (vs : List Voxel) :
    ∀ a b c : ℚ,
      vs.foldl
        (fun (acc : ℚ × ℚ × ℚ) v =>
          (acc.1 + |reportOn v - txInside O v|, acc.2.1 + txInside O v, acc.2.2 + reportOn v))
        (a, b, c) =
      (a + (vs.map fun v => |reportOn v - txInside O v|).sum,
       b + (vs.map (txInside O)).sum, c + (vs.map reportOn).sum) := by
  induction vs with
  | nil => intro a b c; simp
  | cons v rest ih =>
      intro a b c
      simp only [List.foldl_cons, List.map_cons, List.sum_cons, ih]
      refine Prod.ext (by ring) (Prod.ext (by ring) (by ring))

/-- C1: for a collection of scored voxels, with `A_tx_inside` the area of a
voxel's intersection with the occupancy region `O`, the in-voxel error
equals the summed absolute difference between `report_on` and `A_tx_inside`
divided by the max of the two sums, and it is `0` (no division) when both
sums are zero. -/
theorem c1_in_voxel_error (O : List Rect) (vs : List Voxel)
    (hv : ∀ v ∈ vs, validVoxel v = true) :
    ((vs.map (txInside O)).sum = 0 ∧ (vs.map reportOn).sum = 0 → Ei O vs = 0) ∧
    (¬((vs.map (txInside O)).sum = 0 ∧ (vs.map reportOn).sum = 0) →
      Ei O vs =
        (vs.map fun v => |reportOn v - txInside O v|).sum /
          max ((vs.map (txInside O)).sum) ((vs.map reportOn).sum)) := by
  have hIn : 0 ≤ (vs.map (txInside O)).sum :=
    List.sum_nonneg (by
      intro x hx
      obtain ⟨v, _, rfl⟩ := List.mem_map.mp hx
      exact txInside_nonneg O v)
  have hRep : 0 ≤ (vs.map reportOn).sum :=
    List.sum_nonneg (by
      intro x hx
      obtain ⟨v, hv', rfl⟩ := List.mem_map.mp hx
      exact reportOn_nonneg (hv v hv'))
  have hE : Ei O vs =
      if max ((vs.map (txInside O)).sum) ((vs.map reportOn).sum) = 0 then 0
      else (vs.map fun v => |reportOn v - txInside O v|).sum /
        max ((vs.map (txInside O)).sum) ((vs.map reportOn).sum) := by
    unfold Ei
    rw [Ei_foldl O vs 0 0 0]
    norm_num
  constructor
  · rintro ⟨h1, h2⟩
    rw [hE, h1, h2]
    simp
  · intro hne
    have hmax : max ((vs.map (txInside O)).sum) ((vs.map reportOn).sum) ≠ 0 := by
      intro h0
      exact hne ⟨le_antisymm (le_of_le_of_eq (le_max_left _ _) h0) hIn,
        le_antisymm (le_of_le_of_eq (le_max_right _ _) h0) hRep⟩
    rw [hE, if_neg hmax]

/-- C1 witness: the design document's worked example, an occupied region
equal to a single fully-reported voxel, yields `E_i = 0`. -/
theorem c1_in_voxel_error_witness :
    Ei [⟨0, 5, 0, 10⟩] [⟨0, 10, 0, 5, 1⟩] = 0 := by
  have h := (c1_in_voxel_error [⟨0, 5, 0, 10⟩] [⟨0, 10, 0, 5, 1⟩] (by decide)).2
    (by norm_num [txInside, interRect, rectInter, properB, regionArea, rectArea, voxelRect,
      reportOn, voxelArea, nobw])
  rw [h]
  norm_num [txInside, interRect, rectInter, properB, regionArea, rectArea, voxelRect,
    reportOn, voxelArea, nobw]

/-- C2: the out-of-voxel error equals `area(difference(O, V)) / area(O)`
with the one-sided difference of the reported region `V` from the occupied
region `O`; it is `0` when `area(O) = 0`; and it always lies in `[0, 1]`
because `A_tx_outside` never exceeds `A_occupied`. -/
theorem c2_out_voxel_error (O : List Rect) (vs : List Voxel)
    (hO : ∀ r ∈ O, properB r = true) :
    (regionArea O = 0 → Eo O vs = 0) ∧
    (regionArea O ≠ 0 →
      Eo O vs = regionArea (diffR O (vs.map voxelRect)) / regionArea O) ∧
    regionArea (diffR O (vs.map voxelRect)) ≤ regionArea O ∧
    0 ≤ Eo O vs ∧ Eo O vs ≤ 1 := by
  have hle := diffR_area_le (vs.map voxelRect) hO
  have hd0 := diffR_area_nonneg (vs.map voxelRect) hO
  have hO0 := regionArea_nonneg hO
  by_cases h0 : regionArea O = 0
  · refine ⟨fun _ => by simp [Eo, h0], fun h => absurd h0 h, hle, ?_, ?_⟩
    · simp [Eo, h0]
    · simp [Eo, h0]
  · have hpos : 0 < regionArea O := lt_of_le_of_ne hO0 (Ne.symm h0)
    refine ⟨fun h => absurd h h0, fun _ => by simp [Eo, h0], hle, ?_, ?_⟩
    · rw [Eo, if_neg h0]
      exact div_nonneg hd0 (le_of_lt hpos)
    · rw [Eo, if_neg h0]
      exact (div_le_one hpos).mpr hle

/-- C2 witness: a unit occupied square with no reported voxels has
`E_o = 1`, within the proven bounds. -/
theorem c2_out_voxel_error_witness :
    Eo [⟨0, 1, 0, 1⟩] [] = regionArea (diffR [⟨0, 1, 0, 1⟩] []) / regionArea [⟨0, 1, 0, 1⟩] ∧
    Eo [⟨0, 1, 0, 1⟩] [] ≤ 1 := by
  have h := c2_out_voxel_error [⟨0, 1, 0, 1⟩] [] (by decide)
  exact ⟨h.2.1 (by norm_num [regionArea, rectArea]), h.2.2.2.2⟩

/-- C6: a voxel with zero duty cycle or zero area (including inverted
bounds) is excluded from all computations: prepending it to the input
changes neither `E_i` nor `E_o` of the scoring pipeline nor the total
`report_on`, and the pipeline functions stay total (the discard is local,
never fatal). -/
theorem c6_invalid_voxel_excluded (O : List Rect) (v : Voxel) (vs : List Voxel)
    (h : v.duty_cycle = 0 ∨ voxelArea v = 0 ∨ v.t_stop < v.t_start ∨ v.f_stop < v.f_start) :
    scoreEi O (v :: vs) = scoreEi O vs ∧ scoreEo O (v :: vs) = scoreEo O vs ∧
    totalReportOn (v :: vs) = totalReportOn vs := by
  have hinv : validVoxel v = false := by
    simp only [validVoxel, Bool.and_eq_false_iff, decide_eq_false_iff_not, not_lt]
    rcases h with h | h | h | h
    · exact Or.inl (Or.inl (le_of_eq h))
    · unfold voxelArea at h
      rcases mul_eq_zero.mp h with h | h
      · exact Or.inr (by linarith)
      · exact Or.inl (Or.inr (by linarith))
    · exact Or.inl (Or.inr (le_of_lt h))
    · exact Or.inr (le_of_lt h)
  have hf : (v :: vs).filter validVoxel = vs.filter validVoxel := by
    simp [List.filter_cons, hinv]
  exact ⟨by rw [scoreEi, hf, scoreEi], by rw [scoreEo, hf, scoreEo],
    by rw [totalReportOn, hf, totalReportOn]⟩

/-- C6 witness: a zero-duty-cycle voxel leaves the pipeline outputs of a
concrete occupancy grid unchanged. -/
theorem c6_invalid_voxel_excluded_witness :
    scoreEi [⟨0, 1, 0, 1⟩] [⟨0, 1, 0, 1, 0⟩] = scoreEi [⟨0, 1, 0, 1⟩] [] ∧
    scoreEo [⟨0, 1, 0, 1⟩] [⟨0, 1, 0, 1, 0⟩] = scoreEo [⟨0, 1, 0, 1⟩] [] ∧
    totalReportOn [⟨0, 1, 0, 1, 0⟩] = totalReportOn [] :=
  c6_invalid_voxel_excluded [⟨0, 1, 0, 1⟩] ⟨0, 1, 0, 1, 0⟩ [] (Or.inl rfl)

/-- Modelled from the spec: two rectangles overlap when they overlap both
in time and in frequency (strict interval overlap of the half-open
boxes; touching does not count). -/
def rectOverlap (a b : Rect) : Prop :=
  a.t1 < b.t2 ∧ b.t1 < a.t2 ∧ a.f1 < b.f2 ∧ b.f1 < a.f2

instance (a b : Rect) : Decidable (rectOverlap a b) := by
  unfold rectOverlap
  infer_instance

/-- Modelled from the spec: an element handled by the Coalescing Engine, a
Region represented by the multiset of voxel rectangles merged into it (its
planar shape is their union, possibly non-rectangular) together with its
accumulated `report_on`. -/
abbrev CoalElem : Type := Multiset Rect × ℚ

/-- Two coalescing elements overlap when some pair of their constituent
rectangles overlaps in time and frequency. -/
def overlapE (X Y : CoalElem) : Prop := ∃ a ∈ X.1, ∃ b ∈ Y.1, rectOverlap a b

instance (a : Rect) (M : Multiset Rect) : Decidable (∃ b ∈ M, rectOverlap a b) :=
  Multiset.decidableExistsMultiset

instance (X Y : CoalElem) : Decidable (overlapE X Y) := by
  unfold overlapE
  exact Multiset.decidableExistsMultiset

/-- Modelled from the spec: the merge of two elements: the boundary is the
union of the two regions and `report_on` is the sum of the two. -/
def mergeE (X Y : CoalElem) : CoalElem := (X.1 + Y.1, X.2 + Y.2)

/-- A Coalescing Engine state: the current multiset of elements. -/
abbrev CoalState : Type := Multiset CoalElem

/-- Modelled from the spec: one step of the Coalescing Engine: select any
pair of overlapping elements, remove them, and replace them with their
merge. -/
def coalStep (S T : CoalState) : Prop :=
  ∃ X Y R, overlapE X Y ∧ S = X ::ₘ Y ::ₘ R ∧ T = mergeE X Y ::ₘ R

/-- Modelled from the spec: the engine's stopping condition — no two
distinct elements of the state overlap (a set of disjoint Regions). -/
def Coalesced (S : CoalState) : Prop := ∀ X ∈ S, ∀ Y ∈ S.erase X, ¬ overlapE X Y

instance (X : CoalElem) (M : Multiset CoalElem) : Decidable (∀ Y ∈ M, ¬ overlapE X Y) :=
  Multiset.decidableForallMultiset

instance (S : CoalState) : Decidable (Coalesced S) := by
  unfold Coalesced
  exact Multiset.decidableForallMultiset

theorem rectOverlap_symm {a b : Rect} (h : rectOverlap a b) : rectOverlap b a :=
  ⟨h.2.1, h.1, h.2.2.2, h.2.2.1⟩

theorem overlapE_symm {X Y : CoalElem} (h : overlapE X Y) : overlapE Y X := by
  obtain ⟨a, ha, b, hb, hab⟩ := h
  exact ⟨b, hb, a, ha, rectOverlap_symm hab⟩

theorem overlapE_merge_left {X Y Z : CoalElem} (h : overlapE X Z ∨ overlapE Y Z) :
    overlapE (mergeE X Y) Z := by
  rcases h with ⟨a, ha, b, hb, hab⟩ | ⟨a, ha, b, hb, hab⟩
  · exact ⟨a, Multiset.mem_add.mpr (Or.inl ha), b, hb, hab⟩
  · exact ⟨a, Multiset.mem_add.mpr (Or.inr ha), b, hb, hab⟩

theorem mergeE_comm (A B : CoalElem) : mergeE A B = mergeE B A := by
  simp [mergeE, add_comm]

theorem mergeE_right_swap (A B C : CoalElem) :
    mergeE (mergeE A B) C = mergeE (mergeE A C) B := by
  simp [mergeE, Prod.ext_iff, add_right_comm]

/-- Local diamond property of the coalescing step: two different merges
from the same state either coincide or can be joined in one more step. -/
theorem coalStep_diamond {S T₁ T₂ : CoalState} (h₁ : coalStep S T₁) (h₂ : coalStep S T₂) :
    T₁ = T₂ ∨ ∃ U, coalStep T₁ U ∧ coalStep T₂ U := by
  obtain ⟨X, Y, R, hXY, hS1, hT1⟩ := h₁
  obtain ⟨U, V, R', hUV, hS2, hT2⟩ := h₂
  rw [hS1] at hS2
  rcases Multiset.cons_eq_cons.mp hS2 with ⟨hXU, h2⟩ | ⟨hne, cs, hYR, hVR'⟩
  · rcases Multiset.cons_eq_cons.mp h2 with ⟨hYV, hRR⟩ | ⟨hne2, ds, hR, hR'⟩
    · -- identical pairs selected
      left
      rw [hT1, hT2, hXU, hYV, hRR]
    · -- pairs share the first element X = U
      right
      subst hXU
      refine ⟨mergeE (mergeE X Y) V ::ₘ ds, ⟨mergeE X Y, V, ds,
        overlapE_merge_left (Or.inl hUV), by rw [hT1, hR], rfl⟩,
        ⟨mergeE X V, Y, ds, overlapE_merge_left (Or.inl hXY), by rw [hT2, hR'], ?_⟩⟩
      rw [mergeE_right_swap]
  · rcases Multiset.cons_eq_cons.mp hYR with ⟨hYU, hRcs⟩ | ⟨hne2, ds, hR, hcs⟩
    · -- Y = U
      subst hYU
      rw [← hRcs] at hVR'
      rcases Multiset.cons_eq_cons.mp hVR' with ⟨hVX, hR'R⟩ | ⟨hne3, es, hR', hRes⟩
      · -- same pair in the opposite order
        left
        rw [hT1, hT2, hVX, hR'R, mergeE_comm]
      · -- pairs share Y
        right
        refine ⟨mergeE (mergeE X Y) V ::ₘ es, ⟨mergeE X Y, V, es,
          overlapE_merge_left (Or.inr hUV), by rw [hT1, hRes], rfl⟩,
          ⟨mergeE Y V, X, es, overlapE_merge_left (Or.inl (overlapE_symm hXY)),
            by rw [hT2, hR'], ?_⟩⟩
        rw [mergeE_comm X Y, mergeE_right_swap]
    · -- X ≠ U and Y ≠ U
      rw [hcs] at hVR'
      rcases Multiset.cons_eq_cons.mp hVR' with ⟨hVX, hR'⟩ | ⟨hne3, es, hR', hes⟩
      · -- pairs share X = V
        right
        have hUX : overlapE U X := by rw [← hVX]; exact hUV
        refine ⟨mergeE (mergeE X Y) U ::ₘ ds, ⟨mergeE X Y, U, ds,
          overlapE_merge_left (Or.inl (overlapE_symm hUX)), by rw [hT1, hR], rfl⟩,
          ⟨mergeE U X, Y, ds, overlapE_merge_left (Or.inr hXY),
            by rw [hT2, hR', hVX], ?_⟩⟩
        rw [mergeE_right_swap, mergeE_comm X U]
      · rcases Multiset.cons_eq_cons.mp hes with ⟨hYV, hdses⟩ | ⟨hne4, fs, hds, hesf⟩
        · -- pairs share Y = V
          right
          have hUY : overlapE U Y := by rw [hYV]; exact hUV
          refine ⟨mergeE (mergeE X Y) U ::ₘ ds, ⟨mergeE X Y, U, ds,
            overlapE_merge_left (Or.inr (overlapE_symm hUY)), by rw [hT1, hR], rfl⟩,
            ⟨mergeE U Y, X, ds, overlapE_merge_left (Or.inr (overlapE_symm hXY)),
              by rw [hT2, hR', ← hYV, hdses], ?_⟩⟩
          rw [mergeE_right_swap X Y U, mergeE_comm X U, mergeE_right_swap U X Y]
        · -- four distinct element occurrences
          right
          refine ⟨mergeE X Y ::ₘ mergeE U V ::ₘ fs, ⟨U, V, mergeE X Y ::ₘ fs, hUV, ?_, ?_⟩,
            ⟨X, Y, mergeE U V ::ₘ fs, hXY, ?_, ?_⟩⟩
          · rw [hT1, hR, hds, Multiset.cons_swap (mergeE X Y) U,
              Multiset.cons_swap (mergeE X Y) V]
          · rw [Multiset.cons_swap]
          · rw [hT2, hR', hesf, Multiset.cons_swap (mergeE U V) X,
              Multiset.cons_swap (mergeE U V) Y]
          · rfl

theorem coalStep_cr : ∀ a b c : CoalState, coalStep a b → coalStep a c →
    ∃ d, Relation.ReflGen coalStep b d ∧ Relation.ReflTransGen coalStep c d := by
  intro a b c h1 h2
  rcases coalStep_diamond h1 h2 with h | ⟨U, hU1, hU2⟩
  · exact ⟨b, Relation.ReflGen.refl, h ▸ Relation.ReflTransGen.refl⟩
  · exact ⟨U, Relation.ReflGen.single hU1, Relation.ReflTransGen.single hU2⟩

theorem coalesced_no_step {S T : CoalState} (hS : Coalesced S) : ¬ coalStep S T := by
  rintro ⟨X, Y, R, hXY, hS1, -⟩
  have hX : X ∈ S := hS1 ▸ Multiset.mem_cons_self _ _
  have hY : Y ∈ S.erase X := by
    rw [hS1, Multiset.erase_cons_head]
    exact Multiset.mem_cons_self _ _
  exact hS X hX Y hY hXY

theorem coalesced_reach_eq {S T : CoalState} (hS : Coalesced S)
    (h : Relation.ReflTransGen coalStep S T) : T = S := by
  rcases Relation.ReflTransGen.cases_head h with h | ⟨c, hc, -⟩
  · exact h.symm
  · exact absurd hc (coalesced_no_step hS)

/-- C3: the Coalescing Engine is order independent: any two sequences of
pair merges that both run until no pair overlaps produce the same final
multiset of Regions with the same `report_on` values, regardless of the
order in which overlapping pairs were selected. -/
theorem c3_coalescing_order_independent (S T₁ T₂ : CoalState)
    (h₁ : Relation.ReflTransGen coalStep S T₁)
    (h₂ : Relation.ReflTransGen coalStep S T₂)
    (hc₁ : Coalesced T₁) (hc₂ : Coalesced T₂) : T₁ = T₂ := by
  obtain ⟨d, hd₁, hd₂⟩ := Relation.church_rosser coalStep_cr h₁ h₂
  exact (coalesced_reach_eq hc₁ hd₁).symm.trans (coalesced_reach_eq hc₂ hd₂)

theorem coalesced_singleton (X : CoalElem) : Coalesced (X ::ₘ 0) := by
  intro A hA B hB
  rcases Multiset.mem_cons.mp hA with rfl | hA0
  · rw [Multiset.erase_cons_head] at hB
    exact absurd hB (Multiset.not_mem_zero B)
  · exact absurd hA0 (Multiset.not_mem_zero A)

/-- C3 witness: merging the design document's two example voxels in either
order yields the same single final Region with `report_on = 45`. -/
theorem c3_coalescing_order_independent_witness :
    mergeE ({⟨0, 5, 0, 10⟩}, 25) ({⟨3, 8, 5, 15⟩}, 20) ::ₘ (0 : CoalState) =
    mergeE ({⟨3, 8, 5, 15⟩}, 20) ({⟨0, 5, 0, 10⟩}, 25) ::ₘ (0 : CoalState) := by
  have hov : overlapE ({⟨0, 5, 0, 10⟩}, 25) ({⟨3, 8, 5, 15⟩}, 20) := by decide
  exact c3_coalescing_order_independent
    {({⟨0, 5, 0, 10⟩}, 25), ({⟨3, 8, 5, 15⟩}, 20)} _ _
    (Relation.ReflTransGen.single
      ⟨({⟨0, 5, 0, 10⟩}, 25), ({⟨3, 8, 5, 15⟩}, 20), 0, hov, rfl, rfl⟩)
    (Relation.ReflTransGen.single
      ⟨({⟨3, 8, 5, 15⟩}, 20), ({⟨0, 5, 0, 10⟩}, 25), 0, overlapE_symm hov,
        Multiset.cons_swap _ _ _, rfl⟩)
    (coalesced_singleton _) (coalesced_singleton _)

/-- C7: coalescing is idempotent: if no pair of Regions in a state
overlaps (the engine has already run), any further run of the engine
returns the same Region set with the same per-Region `report_on`. -/
theorem c7_coalescing_idempotent (S T : CoalState) (hS : Coalesced S)
    (h : Relation.ReflTransGen coalStep S T) : T = S :=
  coalesced_reach_eq hS h

/-- C7 witness: a concrete two-element non-overlapping state is a fixed
point of the engine: an engine run from it (here the completed, empty run,
the only one possible since the state is coalesced) returns it unchanged. -/
theorem c7_coalescing_idempotent_witness :
    ({({⟨0, 1, 0, 1⟩}, 1), ({⟨5, 6, 0, 1⟩}, 2)} : CoalState) =
      {({⟨0, 1, 0, 1⟩}, 1), ({⟨5, 6, 0, 1⟩}, 2)} :=
  c7_coalescing_idempotent {({⟨0, 1, 0, 1⟩}, 1), ({⟨5, 6, 0, 1⟩}, 2)}
    {({⟨0, 1, 0, 1⟩}, 1), ({⟨5, 6, 0, 1⟩}, 2)} (by decide) Relation.ReflTransGen.refl

/-- Modelled from the spec: one parsed CIL spectrum-usage declaration, as
consumed by the absent Declaration Classifier and the windower: frame
timestamp, the `measured_data` flag, and the declared voxels. -/
structure Declaration where
  frame_timestamp : ℚ
  measured_data : Bool
  voxels : List Voxel
deriving DecidableEq, Repr

/-- The three outcomes of the Declaration Classifier. -/
inductive DeclCategory : Type
  | historical
  | predicted
  | ignored
deriving DecidableEq, Repr

/-- A voxel's half-open time interval lies strictly before a timestamp. -/
def voxelBefore (v : Voxel) (ft : ℚ) : Bool := decide (v.t_stop ≤ ft)

/-- A voxel's half-open time interval lies strictly after a timestamp. -/
def voxelAfter (v : Voxel) (ft : ℚ) : Bool := decide (ft < v.t_start)

/-- Modelled from the spec: the Declaration Classifier, absent from the
sources: declarations outside the match window are ignored; Historical
requires `measured_data` and a voxel strictly before the frame timestamp;
Predicted requires `!measured_data` and a voxel strictly after it;
everything else is ignored. -/
def classify (ms me : ℚ) (m : Declaration) : DeclCategory :=
  if m.frame_timestamp < ms ∨ me < m.frame_timestamp then DeclCategory.ignored
  else if m.measured_data && m.voxels.any (fun v => voxelBefore v m.frame_timestamp) then
    DeclCategory.historical
  else if !m.measured_data && m.voxels.any (fun v => voxelAfter v m.frame_timestamp) then
    DeclCategory.predicted
  else DeclCategory.ignored

theorem classify_historical_iff (ms me : ℚ) (m : Declaration) :
    classify ms me m = DeclCategory.historical ↔
      ms ≤ m.frame_timestamp ∧ m.frame_timestamp ≤ me ∧ m.measured_data = true ∧
        ∃ v ∈ m.voxels, v.t_stop ≤ m.frame_timestamp := by
  unfold classify
  split_ifs with h1 h2 h3
  · constructor
    · intro h
      exact absurd h (by simp)
    · rintro ⟨ha, hb, -, -⟩
      rcases h1 with h | h <;> linarith
  · push_neg at h1
    simp only [Bool.and_eq_true, List.any_eq_true, voxelBefore, decide_eq_true_eq] at h2
    exact ⟨fun _ => ⟨h1.1, h1.2, h2.1, h2.2⟩, fun _ => rfl⟩
  · constructor
    · intro h
      exact absurd h (by simp)
    · rintro ⟨-, -, hm, hex⟩
      exact h2 (by
        simp only [Bool.and_eq_true, List.any_eq_true, voxelBefore, decide_eq_true_eq]
        exact ⟨hm, hex⟩)
  · constructor
    · intro h
      exact absurd h (by simp)
    · rintro ⟨-, -, hm, hex⟩
      exact h2 (by
        simp only [Bool.and_eq_true, List.any_eq_true, voxelBefore, decide_eq_true_eq]
        exact ⟨hm, hex⟩)

theorem classify_predicted_iff (ms me : ℚ) (m : Declaration) :
    classify ms me m = DeclCategory.predicted ↔
      ms ≤ m.frame_timestamp ∧ m.frame_timestamp ≤ me ∧ m.measured_data = false ∧
        ∃ v ∈ m.voxels, m.frame_timestamp < v.t_start := by
  unfold classify
  split_ifs with h1 h2 h3
  · constructor
    · intro h
      exact absurd h (by simp)
    · rintro ⟨ha, hb, -, -⟩
      rcases h1 with h | h <;> linarith
  · simp only [Bool.and_eq_true] at h2
    constructor
    · intro h
      exact absurd h (by simp)
    · rintro ⟨-, -, hm, -⟩
      rw [hm] at h2
      exact absurd h2.1 (by simp)
  · push_neg at h1
    simp only [Bool.and_eq_true, Bool.not_eq_true', List.any_eq_true, voxelAfter,
      decide_eq_true_eq] at h3
    exact ⟨fun _ => ⟨h1.1, h1.2, h3.1, h3.2⟩, fun _ => rfl⟩
  · constructor
    · intro h
      exact absurd h (by simp)
    · rintro ⟨-, -, hm, hex⟩
      exact h3 (by
        simp only [Bool.and_eq_true, Bool.not_eq_true', List.any_eq_true, voxelAfter,
          decide_eq_true_eq]
        exact ⟨hm, hex⟩)

/-- C5: the Classifier marks a declaration Historical exactly when
`measured_data` holds and some voxel lies strictly before the frame
timestamp, Predicted exactly when `measured_data` is false and some voxel
lies strictly after it, both only inside the match window; any declaration
whose frame timestamp falls outside the match window is ignored regardless
of category. -/
theorem c5_classifier (ms me : ℚ) (m : Declaration) :
    (classify ms me m = DeclCategory.historical ↔
      ms ≤ m.frame_timestamp ∧ m.frame_timestamp ≤ me ∧ m.measured_data = true ∧
        ∃ v ∈ m.voxels, v.t_stop ≤ m.frame_timestamp) ∧
    (classify ms me m = DeclCategory.predicted ↔
      ms ≤ m.frame_timestamp ∧ m.frame_timestamp ≤ me ∧ m.measured_data = false ∧
        ∃ v ∈ m.voxels, m.frame_timestamp < v.t_start) ∧
    ((m.frame_timestamp < ms ∨ me < m.frame_timestamp) →
      classify ms me m = DeclCategory.ignored) := by
  refine ⟨classify_historical_iff ms me m, classify_predicted_iff ms me m, fun h => ?_⟩
  unfold classify
  rw [if_pos h]

/-- C5 witness: a measured declaration with a voxel entirely before its
frame timestamp is Historical, and a declaration stamped after the match
end is ignored. -/
theorem c5_classifier_witness :
    classify 0 100 ⟨50, true, [⟨0, 1, 40, 45, 1⟩]⟩ = DeclCategory.historical ∧
    classify 0 100 ⟨200, true, [⟨0, 1, 40, 45, 1⟩]⟩ = DeclCategory.ignored := by
  constructor
  · exact (c5_classifier 0 100 ⟨50, true, [⟨0, 1, 40, 45, 1⟩]⟩).1.mpr
      ⟨by norm_num, by norm_num, rfl, ⟨0, 1, 40, 45, 1⟩, by simp, by norm_num⟩
  · exact (c5_classifier 0 100 ⟨200, true, [⟨0, 1, 40, 45, 1⟩]⟩).2.2 (Or.inr (by norm_num))

/-- Modelled from the spec: the minimum `t_start` across a declaration's
voxels (equal to the frame timestamp for a voxel-free declaration, which
the windower never receives since Predicted declarations have at least one
voxel). -/
def minVoxelTime (m : Declaration) : ℚ :=
  match m.voxels.map (fun v => v.t_start) with
  | [] => m.frame_timestamp
  | t :: ts => ts.foldl min t

/-- Modelled from the spec: the validity window start of a Predicted
declaration: `max(min_voxel_time(m), frame_timestamp(m))`. -/
def windowStart (m : Declaration) : ℚ := max (minVoxelTime m) m.frame_timestamp

/-- Modelled from the spec: the validity window stop of the declaration at
position `i` of one destination's `frame_timestamp`-ordered list: the frame
timestamp of the next declaration to the same destination, else the match
end time. -/
def windowStop (ds : List Declaration) (i : ℕ) (matchEnd : ℚ) : ℚ :=
  match ds[i + 1]? with
  | some nxt => nxt.frame_timestamp
  | none => matchEnd

/-- Modelled from the spec: trim a voxel's time interval to the validity
window, keeping `duty_cycle` (and the frequency bounds) unchanged and
discarding the voxel when the trimmed interval is empty. -/
def trimVoxel (ws wstop : ℚ) (v : Voxel) : Option Voxel :=
  let t1 := max v.t_start ws
  let t2 := min v.t_stop wstop
  if t1 < t2 then some ⟨v.f_start, v.f_stop, t1, t2, v.duty_cycle⟩ else none

/-- Modelled from the spec: the surviving voxels of the declaration at
position `i` of one destination's ordered list after validity-window
trimming (the Predicted-Usage Validity Windower, absent from the
sources). -/
def windowedVoxels (matchEnd : ℚ) (ds : List Declaration) (i : ℕ) : List Voxel :=
  match ds[i]? with
  | none => []
  | some m => m.voxels.filterMap (trimVoxel (windowStart m) (windowStop ds i matchEnd))

/-- C4: for a Predicted declaration `m` in its destination's ordered list,
the windower uses `window_start = max(min voxel t_start, frame_timestamp)`
and `window_stop` equal to the next declaration's frame timestamp (match
end when none); each voxel is trimmed to the intersection of its own time
interval with the window, the duty cycle and frequency bounds are carried
through unchanged, and voxels whose trimmed interval is empty are
discarded. -/
theorem c4_validity_windower (matchEnd : ℚ) (ds : List Declaration) (i : ℕ)
    (m : Declaration) (hm : ds[i]? = some m) :
    windowedVoxels matchEnd ds i =
      m.voxels.filterMap
        (trimVoxel (max (minVoxelTime m) m.frame_timestamp) (windowStop ds i matchEnd)) ∧
    (∀ m2, ds[i + 1]? = some m2 → windowStop ds i matchEnd = m2.frame_timestamp) ∧
    (ds[i + 1]? = none → windowStop ds i matchEnd = matchEnd) ∧
    (∀ ws wstop : ℚ, ∀ v v' : Voxel, trimVoxel ws wstop v = some v' →
      v'.duty_cycle = v.duty_cycle ∧ v'.f_start = v.f_start ∧ v'.f_stop = v.f_stop ∧
      ∀ x : ℚ, (v'.t_start ≤ x ∧ x < v'.t_stop ↔
        (v.t_start ≤ x ∧ x < v.t_stop) ∧ ws ≤ x ∧ x < wstop)) ∧
    (∀ ws wstop : ℚ, ∀ v : Voxel, trimVoxel ws wstop v = none →
      ∀ x : ℚ, ¬((v.t_start ≤ x ∧ x < v.t_stop) ∧ ws ≤ x ∧ x < wstop)) := by
  refine ⟨by unfold windowedVoxels windowStart; rw [hm], fun m2 h2 => by rw [windowStop, h2],
    fun h2 => by rw [windowStop, h2], fun ws wstop v v' hv => ?_, fun ws wstop v hv x hx => ?_⟩
  · unfold trimVoxel at hv
    by_cases hlt : max v.t_start ws < min v.t_stop wstop
    · rw [if_pos hlt] at hv
      obtain rfl := Option.some.inj hv
      refine ⟨rfl, rfl, rfl, fun x => ?_⟩
      dsimp only
      rw [max_le_iff, lt_min_iff]
      constructor
      · rintro ⟨⟨h1, h2⟩, h3, h4⟩
        exact ⟨⟨h1, h3⟩, h2, h4⟩
      · rintro ⟨⟨h1, h3⟩, h2, h4⟩
        exact ⟨⟨h1, h2⟩, h3, h4⟩
    · rw [if_neg hlt] at hv
      exact absurd hv (by simp)
  · unfold trimVoxel at hv
    by_cases hlt : max v.t_start ws < min v.t_stop wstop
    · rw [if_pos hlt] at hv
      exact absurd hv (by simp)
    · obtain ⟨⟨h1, h2⟩, h3, h4⟩ := hx
      exact hlt (lt_of_le_of_lt (max_le h1 h3) (lt_min h2 h4))

/-- C4 witness: the design document's worked example: a declaration at
frame timestamp 10 with minimum voxel time 8 followed by one at 14 gets the
validity window `[10, 14)`, and its voxel `[8, 20)` is trimmed to
`[10, 14)` with the duty cycle unchanged. -/
theorem c4_validity_windower_witness :
    windowedVoxels 100 [⟨10, false, [⟨0, 1, 8, 20, 1/2⟩]⟩, ⟨14, false, [⟨0, 1, 20, 30, 1⟩]⟩] 0 =
      [⟨0, 1, 10, 14, 1/2⟩] := by
  have h := c4_validity_windower 100
    [⟨10, false, [⟨0, 1, 8, 20, 1/2⟩]⟩, ⟨14, false, [⟨0, 1, 20, 30, 1⟩]⟩] 0
    ⟨10, false, [⟨0, 1, 8, 20, 1/2⟩]⟩ rfl
  rw [h.1]
  norm_num [minVoxelTime, windowStop, trimVoxel, List.filterMap]

/-- C8 counterexample: for two consecutive Predicted declarations to the
same destination, the first window's stop is the second declaration's
frame timestamp (14), but when the second declaration's minimum voxel time
(20) exceeds its frame timestamp, its window starts at 20, so the windows
do leave a gap: the first window does not end exactly where the second
begins. -/
theorem c8_window_partition_counterexample :
    windowStop [⟨10, false, [⟨0, 1, 8, 20, 1/2⟩]⟩, ⟨14, false, [⟨0, 1, 20, 30, 1⟩]⟩] 0 100 ≠
    windowStart ⟨14, false, [⟨0, 1, 20, 30, 1⟩]⟩ := by
  norm_num [windowStop, windowStart, minVoxelTime]

/-- C8 (amended): for consecutive Predicted declarations `m1, m2` to the
same destination, `m1`'s validity window stops exactly at `m2`'s frame
timestamp, which never exceeds `m2`'s window start (so the windows never
overlap); the windows leave no gap exactly when `m2`'s minimum voxel time
is at most its frame timestamp — otherwise a gap remains, though no voxel
of `m2` starts inside it. -/
theorem c8_window_partition_amended (matchEnd : ℚ) (ds : List Declaration) (i : ℕ)
    (m1 m2 : Declaration) (_h1 : ds[i]? = some m1) (h2 : ds[i + 1]? = some m2) :
    windowStop ds i matchEnd = m2.frame_timestamp ∧
    windowStop ds i matchEnd ≤ windowStart m2 ∧
    (minVoxelTime m2 ≤ m2.frame_timestamp → windowStart m2 = windowStop ds i matchEnd) := by
  have hs : windowStop ds i matchEnd = m2.frame_timestamp := by rw [windowStop, h2]
  refine ⟨hs, ?_, fun hmin => ?_⟩
  · rw [hs, windowStart]
    exact le_max_right _ _
  · rw [hs, windowStart, max_eq_right hmin]

/-- C8 witness: with the second declaration's minimum voxel time (8) below
its frame timestamp (14), consecutive windows meet exactly at 14. -/
theorem c8_window_partition_amended_witness :
    windowStart ⟨14, false, [⟨0, 1, 8, 30, 1⟩]⟩ =
      windowStop [⟨10, false, [⟨0, 1, 8, 20, 1/2⟩]⟩, ⟨14, false, [⟨0, 1, 8, 30, 1⟩]⟩] 0 100 :=
  (c8_window_partition_amended 100
    [⟨10, false, [⟨0, 1, 8, 20, 1/2⟩]⟩, ⟨14, false, [⟨0, 1, 8, 30, 1⟩]⟩] 0
    ⟨10, false, [⟨0, 1, 8, 20, 1/2⟩]⟩ ⟨14, false, [⟨0, 1, 8, 30, 1⟩]⟩ rfl rfl).2.2
    (by norm_num [minVoxelTime])

/-- Statistics of one measurement period, translated from
`Measurement_Period_Stats` in `scoring_parser.h`: counts of sent,
received (excluding duplicate/late), duplicate, and late (excluding
duplicate) messages. -/
structure Measurement_Period_Stats where
  sent : Nat
  received : Nat
  duplicate : Nat
  late : Nat
deriving DecidableEq, Repr

/-- The zero-initialized statistics record (the C++ default constructor). -/
def initStats : Measurement_Period_Stats := ⟨0, 0, 0, 0⟩

/-- Per-flow information, translated from `Flow_Info` in
`scoring_parser.h`.  The C++ `std::map<int, Measurement_Period_Stats>`
(whose `operator[]` default-constructs missing entries) is embedded as a
total function from period indices, and the `std::set<unsigned int>` of
received sequence numbers as its indicator function. -/
structure Flow_Info where
  max_latency : Option ℚ
  on_time : Option ℚ
  off_time : Option ℚ
  listen_time : Option ℚ
  proto : Option String
  size : Option Nat
  tos : Option Nat
  srcAddr : Option String
  srcPort : Option Nat
  dstAddr : Option String
  dstPort : Option Nat
  mp_stats : Int → Measurement_Period_Stats
  received_seqs : Nat → Bool

/-- Duration of a measurement period in seconds (`MP_DURATION` in
`scoring_parser.cpp`). -/
def MP_DURATION : ℚ := 1

/-- Measurement-period index of a timestamp:
`floor((t - start_timestamp) / MP_DURATION)`. -/
def mpNum (start_timestamp t : ℚ) : Int := Int.floor ((t - start_timestamp) / MP_DURATION)

/-- `Update_Flow_Parameter` from `scoring_parser.cpp`: set a flow
parameter, throwing a runtime error when it is already set to a different
value, and leaving it untouched when it is already set to the same
value. -/
def Update_Flow_Parameter {T : Type} [DecidableEq T] (field_name : String)
    (param : Option T) (new_value : T) : Except String (Option T) :=
  match param with
  | some v =>
      if v ≠ new_value then
        Except.error ("Error updating parameter " ++ field_name ++ ": value changed!")
      else Except.ok (some v)
  | none => Except.ok (some new_value)

/-- The six metadata updates of the `SEND` branch of
`Scoring_Parser::Parse_Flow_Traffic_Stats` (proto, tos, size, srcPort,
dstAddr, dstPort), chained `Update_Flow_Parameter` calls where the first
failure aborts the parse with a runtime error. -/
def Send_Params_Update (info : Flow_Info) (proto : String) (tos size srcPort dstPort : Nat)
    (dstAddr : String) : Except String Flow_Info := do
  let p ← Update_Flow_Parameter "proto" info.proto proto
  let t ← Update_Flow_Parameter "tos" info.tos tos
  let sz ← Update_Flow_Parameter "size" info.size size
  let sp ← Update_Flow_Parameter "srcPort" info.srcPort srcPort
  let da ← Update_Flow_Parameter "dstAddr" info.dstAddr dstAddr
  let dp ← Update_Flow_Parameter "dstPort" info.dstPort dstPort
  Except.ok { info with
    proto := p, tos := t, size := sz, srcPort := sp, dstAddr := da, dstPort := dp }

/-- The `RECV` statistics update of `Scoring_Parser::Parse_Flow_Traffic_Stats`
(the counter logic preceding the parameter updates): the measurement
period is derived from the *sent* timestamp; events sent before the match
start are skipped; a missing max latency is a runtime error; otherwise the
sequence number is recorded and exactly one of `duplicate` (sequence
already received for the flow), `late` (receive-minus-sent latency above
the flow's max latency), or `received` is incremented in that period's
statistics. -/
def Parse_Recv_Stats (start_timestamp : ℚ) (info : Flow_Info)
    (sent time : ℚ) (seq : Nat) : Except String Flow_Info :=
  let mp_num := mpNum start_timestamp sent
  if mp_num < 0 then Except.ok info
  else
    match info.max_latency with
    | none => Except.error "Max latency is missing for flow!"
    | some max_latency =>
        let latency := time - sent
        let duplicate := info.received_seqs seq
        let late := decide (max_latency < latency)
        let upd := fun st : Measurement_Period_Stats =>
          if duplicate then { st with duplicate := st.duplicate + 1 }
          else if late then { st with late := st.late + 1 }
          else { st with received := st.received + 1 }
        Except.ok { info with
          received_seqs := fun s => if s = seq then true else info.received_seqs s,
          mp_stats := fun k => if k = mp_num then upd (info.mp_stats k) else info.mp_stats k }

/-- C9: for a `RECV` traffic event whose sent timestamp is at or after the
match start (the measurement period comes from the sent timestamp), the
parse succeeds and exactly one of `duplicate`, `late`, `received` of that
period's statistics is incremented: `duplicate` when the sequence number
was already received (even if also late), else `late` when the latency
exceeds the flow's max latency, else `received`; the `sent` counter and
all other periods are untouched and the sequence number is recorded. -/
theorem c9_recv_stats (start_timestamp : ℚ) (info : Flow_Info) (sent time : ℚ) (seq : Nat)
    (L : ℚ) (hL : info.max_latency = some L) (hs : start_timestamp ≤ sent) :
    ∃ info', Parse_Recv_Stats start_timestamp info sent time seq = Except.ok info' ∧
      (info'.mp_stats (mpNum start_timestamp sent)).duplicate =
        (info.mp_stats (mpNum start_timestamp sent)).duplicate +
          (if info.received_seqs seq then 1 else 0) ∧
      (info'.mp_stats (mpNum start_timestamp sent)).late =
        (info.mp_stats (mpNum start_timestamp sent)).late +
          (if !info.received_seqs seq && decide (L < time - sent) then 1 else 0) ∧
      (info'.mp_stats (mpNum start_timestamp sent)).received =
        (info.mp_stats (mpNum start_timestamp sent)).received +
          (if !info.received_seqs seq && !decide (L < time - sent) then 1 else 0) ∧
      (info'.mp_stats (mpNum start_timestamp sent)).sent =
        (info.mp_stats (mpNum start_timestamp sent)).sent ∧
      (∀ k, k ≠ mpNum start_timestamp sent → info'.mp_stats k = info.mp_stats k) ∧
      info'.received_seqs seq = true := by
  have hmp : ¬ mpNum start_timestamp sent < 0 := by
    rw [not_lt, mpNum, MP_DURATION, div_one]
    exact Int.le_floor.mpr (by push_cast; linarith)
  unfold Parse_Recv_Stats
  rw [if_neg hmp, hL]
  refine ⟨_, rfl, ?_, ?_, ?_, ?_, fun k hk => ?_, ?_⟩
  · by_cases hdup : info.received_seqs seq
    · simp [hdup]
    · by_cases hlate : decide (L < time - sent)
      · simp [hdup, hlate]
      · simp [hdup, hlate]
  · by_cases hdup : info.received_seqs seq
    · simp [hdup]
    · by_cases hlate : decide (L < time - sent)
      · simp [hdup, hlate]
      · simp [hdup, hlate]
  · by_cases hdup : info.received_seqs seq
    · simp [hdup]
    · by_cases hlate : decide (L < time - sent)
      · simp [hdup, hlate]
      · simp [hdup, hlate]
  · by_cases hdup : info.received_seqs seq
    · simp [hdup]
    · by_cases hlate : decide (L < time - sent)
      · simp [hdup, hlate]
      · simp [hdup, hlate]
  · simp [hk]
  · simp

/-- C9 witness: starting from an empty flow with max latency 1, a `RECV`
event sent at the match start with latency 1/2 is counted as received in
period 0, and its sequence number is recorded. -/
theorem c9_recv_stats_witness :
    ∃ info', Parse_Recv_Stats 0
        ⟨some 1, none, none, none, none, none, none, none, none, none, none,
          fun _ => initStats, fun _ => false⟩ 0 (1/2) 7 = Except.ok info' ∧
      (info'.mp_stats 0).received = 1 ∧ (info'.mp_stats 0).duplicate = 0 ∧
      (info'.mp_stats 0).late = 0 ∧ info'.received_seqs 7 = true := by
  obtain ⟨info', hok, h1, h2, h3, h4, h5, h6⟩ := c9_recv_stats 0
    ⟨some 1, none, none, none, none, none, none, none, none, none, none,
      fun _ => initStats, fun _ => false⟩ 0 (1/2) 7 1 rfl le_rfl
  have hmp0 : mpNum 0 0 = 0 := by
    norm_num [mpNum, MP_DURATION]
  rw [hmp0] at h1 h2 h3
  refine ⟨info', hok, ?_, ?_, ?_, h6⟩
  · rw [h3]
    norm_num [initStats]
  · rw [h1]
    norm_num [initStats]
  · rw [h2]
    norm_num [initStats]

/-- C10: once a flow metadata parameter is set, an update carrying a
different value makes the parser throw a runtime error (shown both for
`Update_Flow_Parameter` itself and for the chained updates of the `SEND`
branch), a successful update never overwrites a stored value with a
different one, an update with the same value leaves it unchanged, and an
update of an unset parameter stores the new value. -/
theorem c10_update_flow_parameter {T : Type} [DecidableEq T] (field_name : String)
    (param : Option T) (v new_value : T) (info : Flow_Info) (proto : String)
    (tos size srcPort dstPort : Nat) (dstAddr : String) :
    (param = some v → v ≠ new_value →
      ∃ e, Update_Flow_Parameter field_name param new_value = Except.error e) ∧
    (param = some v → v = new_value →
      Update_Flow_Parameter field_name param new_value = Except.ok (some v)) ∧
    (∀ w, param = some v →
      Update_Flow_Parameter field_name param new_value = Except.ok w → w = some v) ∧
    (param = none →
      Update_Flow_Parameter field_name param new_value = Except.ok (some new_value)) ∧
    (∀ p, info.proto = some p → p ≠ proto →
      ∃ e, Send_Params_Update info proto tos size srcPort dstPort dstAddr =
        Except.error e) := by
  refine ⟨fun hp hne => ?_, fun hp he => ?_, fun w hp hw => ?_, fun hp => ?_,
    fun p hp hne => ?_⟩
  · rw [hp]
    exact ⟨"Error updating parameter " ++ field_name ++ ": value changed!",
      by simp [Update_Flow_Parameter, hne]⟩
  · rw [hp, he]
    simp [Update_Flow_Parameter]
  · rw [hp] at hw
    by_cases hne : v = new_value
    · have heq : Update_Flow_Parameter field_name (some v) new_value =
          Except.ok (some v) := by
        simp [Update_Flow_Parameter, hne]
      rw [heq] at hw
      exact (Except.ok.inj hw).symm
    · have heq : Update_Flow_Parameter field_name (some v) new_value =
          Except.error ("Error updating parameter " ++ field_name ++ ": value changed!") := by
        simp [Update_Flow_Parameter, hne]
      rw [heq] at hw
      exact absurd hw (by simp)
  · rw [hp]
    simp [Update_Flow_Parameter]
  · rw [Send_Params_Update]
    rw [show Update_Flow_Parameter "proto" info.proto proto =
        Except.error ("Error updating parameter " ++ "proto" ++ ": value changed!") by
      rw [hp]; simp [Update_Flow_Parameter, hne]]
    exact ⟨_, rfl⟩

/-- C10 witness: a concrete flow parameter set to 3 rejects an update to 5,
accepts a repeated 3 unchanged, and an unset parameter is set to 5; a flow
whose proto is "udp" makes the SEND-branch updates fail on proto "tcp". -/
theorem c10_update_flow_parameter_witness :
    (∃ e, Update_Flow_Parameter "dstPort" (some 3) (5 : Nat) = Except.error e) ∧
    Update_Flow_Parameter "dstPort" (some 3) (3 : Nat) = Except.ok (some 3) ∧
    Update_Flow_Parameter "dstPort" (none : Option Nat) (5 : Nat) = Except.ok (some 5) ∧
    (∃ e, Send_Params_Update
      ⟨none, none, none, none, some "udp", none, none, none, none, none, none,
        fun _ => initStats, fun _ => false⟩ "tcp" 0 0 0 0 "10.0.0.1" = Except.error e) := by
  have h := fun param v new => c10_update_flow_parameter "dstPort" param (v : Nat) new
    ⟨none, none, none, none, some "udp", none, none, none, none, none, none,
      fun _ => initStats, fun _ => false⟩ "tcp" 0 0 0 0 "10.0.0.1"
  exact ⟨(h (some 3) 3 5).1 rfl (by norm_num),
    (h (some 3) 3 3).2.1 rfl rfl,
    (h none 3 5).2.2.2.1 rfl,
    (h (some 3) 3 5).2.2.2.2 "udp" rfl (by simp)⟩
